import Mathlib

/-!
Verification of the parallel execution utilities in
`src/tools/src/oci_client/utils/parallel.py`.

The module runs independent, possibly-failing tasks over a thread pool and
collects one result per task.  We embed it shallowly:

* A Python runtime value is a `PyVal`; a raised exception is also a `PyVal`
  (constructor `PyVal.exc`).
* A zero-argument Python callable is modelled by its outcome: a value of
  type `PyTask := Except PyVal PyVal` (`.ok v` = returns `v`, `.error e` =
  raises `e`).
* Python dictionaries are modelled as insertion-ordered association lists
  (`dictInsert` / `dictGet?`), exactly mirroring CPython's ordered-dict
  update semantics.
* The nondeterministic completion order of the futures produced by
  `ThreadPoolExecutor`/`as_completed` is an explicit parameter `order`:
  a permutation of the submitted (index/key, payload) pairs.  Theorems
  quantify over every such permutation.
* A Python function that may raise is a Lean function into
  `Except PyVal _`; dispatcher-level exceptions (IndexError from
  `task_names[i]`, KeyError from `results_dict[i]`) are propagated the same
  way.
* The module-level flag `PARALLEL_DISABLED` (read from the environment
  when the module loads) is passed to each dispatcher as an explicit
  boolean.
* `logger.warning` calls inside `run_parallel_map`'s completion loop are
  modelled as an accumulated list of log lines, so that we can state that
  `item_name_func` influences logging only.
-/

/-- A Python runtime value.  `PyVal.none` is the Python `None` object;
`PyVal.exc name msg` is an exception object. -/
inductive PyVal where
  | none : PyVal
  | bool : Bool → PyVal
  | int : Int → PyVal
  | str : String → PyVal
  | exc : String → String → PyVal
deriving DecidableEq

/-- A zero-argument Python callable, modelled by its outcome:
it either returns a value or raises an exception. -/
abbrev PyTask := Except PyVal PyVal

instance : DecidableEq PyTask := fun a b =>
  match a, b with
  | Except.ok x, Except.ok y =>
    if h : x = y then isTrue (by rw [h]) else isFalse (by intro hc; cases hc; exact h rfl)
  | Except.error x, Except.error y =>
    if h : x = y then isTrue (by rw [h]) else isFalse (by intro hc; cases hc; exact h rfl)
  | Except.ok _, Except.error _ => isFalse (by intro hc; cases hc)
  | Except.error _, Except.ok _ => isFalse (by intro hc; cases hc)

/-- The `str()` rendering of a Python value used in log messages. -/
def pyStr : PyVal → String
  | PyVal.none => "None"
  | PyVal.bool b => toString b
  | PyVal.int n => toString n
  | PyVal.str s => s
  | PyVal.exc _ msg => msg

/-- `@dataclass ParallelResult` from `parallel.py`: result of a parallel
task execution.  `result` defaults to Python `None` (`PyVal.none`) and
`error` to `None` (`Option.none`). -/
structure ParallelResult where
  key : String
  success : Bool
  result : PyVal := PyVal.none
  error : Option PyVal := Option.none
deriving DecidableEq

/-- `DEFAULT_REGION_WORKERS` from `parallel.py`. -/
def DEFAULT_REGION_WORKERS : Int := 4

/-- `DEFAULT_CLUSTER_WORKERS` from `parallel.py`. -/
def DEFAULT_CLUSTER_WORKERS : Int := 6

/-- `DEFAULT_INSTANCE_WORKERS` from `parallel.py`. -/
def DEFAULT_INSTANCE_WORKERS : Int := 10

/-- Python ordered-dict update `d[k] = v`: if `k` is present its value is
updated in place (keeping the key's original position), otherwise the pair
is appended at the end. -/
def dictInsert {κ β : Type} [DecidableEq κ] : List (κ × β) → κ → β → List (κ × β)
  | [], k, v => [(k, v)]
  | (k', v') :: rest, k, v =>
    if k' = k then (k', v) :: rest else (k', v') :: dictInsert rest k v

/-- Python dict lookup `d.get(k)`: the value at the first (hence unique)
occurrence of `k`, if any. -/
def dictGet? {κ β : Type} [DecidableEq κ] : List (κ × β) → κ → Option β
  | [], _ => Option.none
  | (k', v) :: rest, k => if k' = k then some v else dictGet? rest k

/-- Python dict subscription `d[k]`, raising `KeyError` when absent. -/
def pyDictGet {κ β : Type} [DecidableEq κ] (d : List (κ × β)) (k : κ) : Except PyVal β :=
  match dictGet? d k with
  | some v => Except.ok v
  | Option.none => Except.error (PyVal.exc "KeyError" "key not found")

/-- Python list subscription `l[i]`, raising `IndexError` when out of range. -/
def pyIndex {α : Type} (l : List α) (i : Nat) : Except PyVal α :=
  match l.get? i with
  | some x => Except.ok x
  | Option.none => Except.error (PyVal.exc "IndexError" "list index out of range")

/-- A Python list comprehension `[g a for a in l]` over a fallible body:
evaluated left to right, the first raised exception aborts the whole
comprehension. -/
def listComp {α β : Type} (g : α → Except PyVal β) : List α → Except PyVal (List β)
  | [] => Except.ok []
  | a :: rest =>
    match g a with
    | Except.error e => Except.error e
    | Except.ok b =>
      match listComp g rest with
      | Except.error e => Except.error e
      | Except.ok bs => Except.ok (b :: bs)

/-- `safe_execute` from `parallel.py`: run the task, returning
`(success, result, error)`; exceptions are caught, never propagated. -/
def safe_execute (task : PyTask) : Bool × PyVal × Option PyVal :=
  match task with
  | Except.ok result => (true, result, Option.none)
  | Except.error e => (false, PyVal.none, some e)

/-- Python truthiness of the `task_names` optional argument:
`None` and the empty list are falsy. -/
def truthyNames : Option (List String) → Option (List String)
  | some (x :: xs) => some (x :: xs)
  | _ => Option.none

/-- The expression `task_names[i] if task_names else f"task_i"` of line 143
of `parallel.py`: may raise `IndexError` when a non-empty `task_names` is
shorter than the task list. -/
def taskNameAt (task_names : Option (List String)) (i : Nat) : Except PyVal String :=
  match truthyNames task_names with
  | some ns => pyIndex ns i
  | Option.none => Except.ok ("task_" ++ toString i)

/-- The body of the sequential-fallback loop of `run_parallel_tasks`
(lines 141-146): for each `(i, task)` compute the name
(`task_names[i] if task_names else f"task_i"`, which can raise
`IndexError`), run `safe_execute`, and append the `ParallelResult`. -/
def seqTasksLoop (task_names : Option (List String)) : List (Nat × PyTask) → Except PyVal (List ParallelResult)
  | [] => Except.ok []
  | (i, task) :: rest =>
    match taskNameAt task_names i with
    | Except.error e => Except.error e
    | Except.ok name =>
      match safe_execute task with
      | (s, r, e) =>
        match seqTasksLoop task_names rest with
        | Except.error ex => Except.error ex
        | Except.ok others =>
          Except.ok (ParallelResult.mk name s r e :: others)

/-- The `as_completed` collection loop of `run_parallel_tasks`
(lines 166-176): futures are observed in completion order `order`
(pairs of submitted index and task); each completion looks up
`task_names[idx]` (possible `IndexError`), evaluates the future and stores
the `ParallelResult` into `results_dict` under the index. -/
def pooledTasksLoop (names : List String) : List (Nat × PyTask) → List (Nat × ParallelResult) → Except PyVal (List (Nat × ParallelResult))
  | [], d => Except.ok d
  | (idx, task) :: rest, d =>
    match pyIndex names idx with
    | Except.error e => Except.error e
    | Except.ok name =>
      match safe_execute task with
      | (s, r, e) =>
        pooledTasksLoop names rest (dictInsert d idx (ParallelResult.mk name s r e))

/-- `run_parallel_tasks` from `parallel.py`.  `PARALLEL_DISABLED` is the
module-level environment flag; `order` is the completion order of the
submitted futures (a permutation of `tasks.enum` in any actual run). -/
def run_parallel_tasks (PARALLEL_DISABLED : Bool) (tasks : List PyTask)
    (max_workers : Int) (task_names : Option (List String))
    (order : List (Nat × PyTask)) : Except PyVal (List ParallelResult) :=
  if PARALLEL_DISABLED || max_workers ≤ 1 then
    seqTasksLoop task_names tasks.enum
  else if tasks.isEmpty then Except.ok []
  else
    match (match truthyNames task_names with
           | some ns => ns
           | Option.none => (List.range tasks.length).map (fun i => "task_" ++ toString i)) with
    | names =>
      match pooledTasksLoop names order [] with
      | Except.error e => Except.error e
      | Except.ok d => listComp (fun i => pyDictGet d i) (List.range tasks.length)

/-- The loop body shared by `run_sequential` (lines 263-272): run each
region's task through `safe_execute` and store the `ParallelResult` under
the region key. -/
def seqRegionsLoop : List (String × PyTask) → List (String × ParallelResult) → List (String × ParallelResult)
  | [], results => results
  | (region, task) :: rest, results =>
    match safe_execute task with
    | (s, r, e) =>
      seqRegionsLoop rest (dictInsert results region (ParallelResult.mk region s r e))

/-- `run_sequential` from `parallel.py`: run region tasks sequentially
(fallback mode).  Note it ignores `fail_fast` entirely. -/
def run_sequential (region_tasks : List (String × PyTask)) : List (String × ParallelResult) :=
  seqRegionsLoop region_tasks []

/-- The `as_completed` collection loop of `run_parallel_regions`
(lines 90-107): futures observed in completion order; each result is
recorded under its region key, and on a failure with `fail_fast` set the
original error is re-raised (the `raise error` at line 102 is caught by the
surrounding `except` which re-records the identical entry and re-raises).
Returns the `results` dict at exit together with the raised error, if any. -/
def regionsLoop (fail_fast : Bool) : List (String × PyTask) → List (String × ParallelResult) → List (String × ParallelResult) × Option PyVal
  | [], results => (results, Option.none)
  | (region, task) :: rest, results =>
    match safe_execute task with
    | (s, r, e) =>
      match dictInsert results region (ParallelResult.mk region s r e) with
      | results' =>
        if s then regionsLoop fail_fast rest results'
        else if fail_fast then (results', e)
        else regionsLoop fail_fast rest results'

/-- `run_parallel_regions` from `parallel.py`.  `order` is the completion
order of the submitted futures (a permutation of the dict's entries in any
actual run). -/
def run_parallel_regions (PARALLEL_DISABLED : Bool) (region_tasks : List (String × PyTask))
    (max_workers : Int) (fail_fast : Bool)
    (order : List (String × PyTask)) : Except PyVal (List (String × ParallelResult)) :=
  if region_tasks.isEmpty then Except.ok []
  else if PARALLEL_DISABLED || max_workers ≤ 1 then
    Except.ok (run_sequential region_tasks)
  else
    match regionsLoop fail_fast order [] with
    | (_, some e) => Except.error e
    | (results, Option.none) => Except.ok results

/-- A single `(item, result, error)` triple returned by `run_parallel_map`.
The middle component is the Python object stored in the tuple: the function
value on success and the `None` object on failure. -/
abbrev MapTriple := PyVal × PyVal × Option PyVal

/-- The sequential-fallback loop of `run_parallel_map` (lines 212-219):
apply `func` to each item, catching exceptions. -/
def seqMapLoop (func : PyVal → PyTask) : List PyVal → List MapTriple
  | [] => []
  | item :: rest =>
    (match func item with
     | Except.ok result => (item, result, Option.none)
     | Except.error e => (item, PyVal.none, some e)) :: seqMapLoop func rest

/-- The `as_completed` collection loop of `run_parallel_map`
(lines 231-240): for each completed future (submitted index and item),
re-fetch `item = items[idx]`, evaluate the future, and on failure emit a
`logger.warning` line built with `item_name_func` before recording the
triple.  Returns the `results_dict` (or a propagated `IndexError`) and the
accumulated warning log. -/
def pooledMapLoop (func : PyVal → PyTask) (items : List PyVal)
    (item_name_func : Option (PyVal → String)) : List (Nat × PyVal) → List (Nat × MapTriple) → List String → Except PyVal (List (Nat × MapTriple)) × List String
  | [], d, log => (Except.ok d, log)
  | (idx, submitted) :: rest, d, log =>
    match pyIndex items idx with
    | Except.error e => (Except.error e, log)
    | Except.ok item =>
      match func submitted with
      | Except.ok result =>
        pooledMapLoop func items item_name_func rest
          (dictInsert d idx (item, result, Option.none)) log
      | Except.error e =>
        match (match item_name_func with
               | some f => f item
               | Option.none => toString idx) with
        | item_name =>
          pooledMapLoop func items item_name_func rest
            (dictInsert d idx (item, PyVal.none, some e))
            (log ++ ["Failed to process item " ++ item_name ++ ": " ++ pyStr e])

/-- `run_parallel_map` from `parallel.py`.  Returns the list of
`(item, result, error)` triples (or a propagated dispatcher exception)
together with the warning log lines emitted. -/
def run_parallel_map (PARALLEL_DISABLED : Bool) (func : PyVal → PyTask)
    (items : List PyVal) (max_workers : Int)
    (item_name_func : Option (PyVal → String))
    (order : List (Nat × PyVal)) : Except PyVal (List MapTriple) × List String :=
  if PARALLEL_DISABLED || max_workers ≤ 1 || items.isEmpty then
    (Except.ok (seqMapLoop func items), [])
  else
    match pooledMapLoop func items item_name_func order [] [] with
    | (Except.error e, log) => (Except.error e, log)
    | (Except.ok d, log) =>
      (listComp (fun i => pyDictGet d i) (List.range items.length), log)

/-- The per-level defaults dict of `get_worker_count` together with its
`.get(level, DEFAULT_INSTANCE_WORKERS)` fallback. -/
def workerDefaults (level : String) : Int :=
  if level = "region" then DEFAULT_REGION_WORKERS
  else if level = "cluster" then DEFAULT_CLUSTER_WORKERS
  else if level = "instance" then DEFAULT_INSTANCE_WORKERS
  else DEFAULT_INSTANCE_WORKERS

/-- `get_worker_count` from `parallel.py`: the appropriate worker count for
a parallelization level. -/
def get_worker_count (level : String) (item_count : Int) (override : Option Int) : Int :=
  match override with
  | some o => min o item_count
  | Option.none => min (workerDefaults level) item_count

/-!
## Derived descriptions of the dispatcher outputs

The following definitions package what one entry of each dispatcher's
output looks like; they are `safe_execute` re-read as a record constructor
and are used to state the theorems below.
-/

/-- The `ParallelResult` that `safe_execute` yields for a task under a
given key. -/
def mkTaskResult (name : String) (t : PyTask) : ParallelResult :=
  match safe_execute t with
  | (s, r, e) => ParallelResult.mk name s r e

/-- The name that `run_parallel_tasks` attaches to the `i`-th task when
`task_names` is long enough: the given name, or the generated `task_i`. -/
def nameFor (task_names : Option (List String)) (i : Nat) : String :=
  match truthyNames task_names with
  | some ns => ns.getD i ""
  | Option.none => "task_" ++ toString i

/-- `task_names` (after Python truthiness) is long enough for `n` tasks,
so that no `IndexError` is raised by `task_names[i]`. -/
def NamesOk (task_names : Option (List String)) (n : Nat) : Prop :=
  match truthyNames task_names with
  | some ns => n ≤ ns.length
  | Option.none => True

/-- The output `run_parallel_tasks` is proved to return: one
`ParallelResult` per task, in input order. -/
def tasksExpected (task_names : Option (List String)) (tasks : List PyTask) : List ParallelResult :=
  tasks.enum.map (fun p => mkTaskResult (nameFor task_names p.1) p.2)

/-- The output entry `run_parallel_regions` is proved to produce for one
`(region, task)` input entry. -/
def regionExpected (p : String × PyTask) : String × ParallelResult :=
  (p.1, mkTaskResult p.1 p.2)

/-- The `(item, result, error)` triple `run_parallel_map` is proved to
produce for one input item. -/
def mapTriple (func : PyVal → PyTask) (item : PyVal) : MapTriple :=
  match func item with
  | Except.ok result => (item, result, Option.none)
  | Except.error e => (item, PyVal.none, some e)

/-- The `results_dict` built by a completion loop: repeated ordered-dict
insertion of `f p` under key `p.1` for each completion event `p`. -/
def buildDict {τ β : Type} (f : Nat × τ → β) (order : List (Nat × τ)) (d : List (Nat × β)) : List (Nat × β) :=
  order.foldl (fun d p => dictInsert d p.1 (f p)) d

/-!
## Concrete example inputs

Small closed inputs used to instantiate the theorems below on concrete
data (including an out-of-input-order completion order).
-/

/-- A sample raised exception object. -/
def excBoom : PyVal := PyVal.exc "RuntimeError" "boom"

/-- Two tasks: the first returns `1`, the second raises. -/
def cexTasks : List PyTask := [Except.ok (PyVal.int 1), Except.error excBoom]

/-- A completion order for `cexTasks` in which the second task finishes
first. -/
def cexOrderT : List (Nat × PyTask) :=
  [(1, Except.error excBoom), (0, Except.ok (PyVal.int 1))]

/-- Two keyed region tasks: `a` succeeds, `b` raises. -/
def cexEntries : List (String × PyTask) :=
  [("a", Except.ok (PyVal.int 7)), ("b", Except.error excBoom)]

/-- Two items for the map dispatcher. -/
def cexItems : List PyVal := [PyVal.int 0, PyVal.int 3]

/-- A function that raises on `0` and increments any other integer. -/
def cexFunc : PyVal → PyTask := fun v =>
  match v with
  | PyVal.int n => if n = 0 then Except.error excBoom else Except.ok (PyVal.int (n + 1))
  | _ => Except.ok v

/-- A completion order for `cexItems` in which the second item finishes
first. -/
def cexOrderM : List (Nat × PyVal) := [(1, PyVal.int 3), (0, PyVal.int 0)]

/-- A function that successfully returns the Python `None` object on every
input. -/
def constNoneFunc : PyVal → PyTask := fun _ => Except.ok PyVal.none

/-- A single keyed entry whose task raises. -/
def cexFail : List (String × PyTask) := [("r", Except.error excBoom)]

/-!  ## Association-list (Python dict) lemmas  -/

@[simp]
theorem dictGet?_insert_self {κ β : Type} [DecidableEq κ] (d : List (κ × β)) (k : κ) (v : β) :
    dictGet? (dictInsert d k v) k = some v := by
  induction d with
  | nil => simp [dictInsert, dictGet?]
  | cons hd tl ih =>
    obtain ⟨k', v'⟩ := hd
    by_cases h : k' = k
    · subst h
      simp [dictInsert, dictGet?]
    · simp [dictInsert, dictGet?, h, ih]

theorem dictGet?_insert_ne {κ β : Type} [DecidableEq κ] (d : List (κ × β)) (k k' : κ) (v : β)
    (h : k' ≠ k) : dictGet? (dictInsert d k v) k' = dictGet? d k' := by
  induction d with
  | nil =>
    have hne : ¬ (k = k') := fun hc => h hc.symm
    simp [dictInsert, dictGet?, hne]
  | cons hd tl ih =>
    obtain ⟨k₀, v₀⟩ := hd
    by_cases hk : k₀ = k
    · subst hk
      have hne : ¬ (k₀ = k') := fun hc => h hc.symm
      simp [dictInsert, dictGet?, hne]
    · simp [dictInsert, dictGet?, hk, ih]

theorem dictInsert_of_not_mem {κ β : Type} [DecidableEq κ] (d : List (κ × β)) (k : κ) (v : β)
    (h : k ∉ d.map Prod.fst) : dictInsert d k v = d ++ [(k, v)] := by
  induction d with
  | nil => simp [dictInsert]
  | cons hd tl ih =>
    obtain ⟨k₀, v₀⟩ := hd
    simp only [List.map_cons, List.mem_cons] at h
    push_neg at h
    have hne : ¬ (k₀ = k) := fun hc => h.1 hc.symm
    simp [dictInsert, hne, ih h.2]

theorem dictGet?_buildDict_not_mem {τ β : Type} (f : Nat × τ → β) (order : List (Nat × τ))
    (d : List (Nat × β)) (i : Nat) (h : i ∉ order.map Prod.fst) :
    dictGet? (buildDict f order d) i = dictGet? d i := by
  induction order generalizing d with
  | nil => rfl
  | cons p rest ih =>
    simp only [List.map_cons, List.mem_cons] at h
    push_neg at h
    calc dictGet? (buildDict f (p :: rest) d) i
        = dictGet? (buildDict f rest (dictInsert d p.1 (f p))) i := rfl
      _ = dictGet? (dictInsert d p.1 (f p)) i := ih _ h.2
      _ = dictGet? d i := dictGet?_insert_ne _ _ _ _ h.1

theorem dictGet?_buildDict_mem {τ β : Type} (f : Nat × τ → β) (order : List (Nat × τ))
    (d : List (Nat × β)) (i : Nat) (t : τ)
    (hnd : (order.map Prod.fst).Nodup) (hmem : (i, t) ∈ order) :
    dictGet? (buildDict f order d) i = some (f (i, t)) := by
  induction order generalizing d with
  | nil => cases hmem
  | cons p rest ih =>
    simp only [List.map_cons, List.nodup_cons] at hnd
    rcases List.mem_cons.mp hmem with heq | hrest
    · subst heq
      have hni : i ∉ rest.map Prod.fst := hnd.1
      calc dictGet? (buildDict f ((i, t) :: rest) d) i
          = dictGet? (buildDict f rest (dictInsert d i (f (i, t)))) i := rfl
        _ = dictGet? (dictInsert d i (f (i, t))) i := dictGet?_buildDict_not_mem _ _ _ _ hni
        _ = some (f (i, t)) := dictGet?_insert_self _ _ _
    · exact ih _ hnd.2 hrest


theorem listComp_ok {α β : Type} (g : α → Except PyVal β) (f : α → β) (l : List α)
    (h : ∀ a ∈ l, g a = Except.ok (f a)) : listComp g l = Except.ok (l.map f) := by
  induction l with
  | nil => rfl
  | cons a rest ih =>
    have ha : g a = Except.ok (f a) := h a (List.mem_cons_self a rest)
    have hrest : listComp g rest = Except.ok (rest.map f) :=
      ih (fun x hx => h x (List.mem_cons_of_mem a hx))
    simp [listComp, ha, hrest]

theorem pyIndex_lt {α : Type} (l : List α) (i : Nat) (dflt : α) (h : i < l.length) :
    pyIndex l i = Except.ok (l.getD i dflt) := by
  have hge : l[i]? = some (l.get ⟨i, h⟩) := by
    rw [← List.get?_eq_getElem?]
    exact List.get?_eq_get h
  simp [pyIndex, List.get?_eq_getElem?, hge]

/-- Membership in a completion order that permutes `tasks.enum` pins down
the payload: it is the element of `tasks` at that index. -/
theorem mem_order_get? {α : Type} {order : List (Nat × α)} {l : List α}
    (horder : order.Perm l.enum) {i : Nat} {t : α} (hmem : (i, t) ∈ order) :
    l.get? i = some t := by
  have henum : (i, t) ∈ l.enum := horder.mem_iff.mp hmem
  have := List.mem_enum_iff_getElem?.mp henum
  simpa [List.get?_eq_getElem?] using this

theorem order_keys_nodup {α : Type} {order : List (Nat × α)} {l : List α}
    (horder : order.Perm l.enum) : (order.map Prod.fst).Nodup := by
  have hmap : (order.map Prod.fst).Perm (l.enum.map Prod.fst) := horder.map Prod.fst
  exact hmap.nodup_iff.mpr (by simpa using List.nodup_range l.length)

theorem order_keys_mem {α : Type} {order : List (Nat × α)} {l : List α}
    (horder : order.Perm l.enum) {i : Nat} (h : i < l.length) :
    ∃ t, (i, t) ∈ order := by
  have hienum : (i, l.get ⟨i, h⟩) ∈ l.enum := by
    have hg : l.get? i = some (l.get ⟨i, h⟩) := List.get?_eq_get h
    rw [List.get?_eq_getElem?] at hg
    exact List.mem_enum_iff_getElem?.mpr hg
  exact ⟨l.get ⟨i, h⟩, horder.mem_iff.mpr hienum⟩

theorem taskNameAt_ok (task_names : Option (List String)) (n i : Nat)
    (hn : NamesOk task_names n) (hi : i < n) :
    taskNameAt task_names i = Except.ok (nameFor task_names i) := by
  unfold taskNameAt nameFor
  unfold NamesOk at hn
  cases htr : truthyNames task_names with
  | none => rfl
  | some ns =>
    rw [htr] at hn
    exact pyIndex_lt ns i "" (lt_of_lt_of_le hi hn)

theorem seqTasksLoop_ok (task_names : Option (List String)) (pairs : List (Nat × PyTask))
    (h : ∀ p ∈ pairs, taskNameAt task_names p.1 = Except.ok (nameFor task_names p.1)) :
    seqTasksLoop task_names pairs =
      Except.ok (pairs.map (fun p => mkTaskResult (nameFor task_names p.1) p.2)) := by
  induction pairs with
  | nil => rfl
  | cons p rest ih =>
    obtain ⟨i, task⟩ := p
    have hhead := h _ (List.mem_cons_self _ _)
    have htail := ih (fun q hq => h q (List.mem_cons_of_mem _ hq))
    simp only [seqTasksLoop, hhead, htail, List.map_cons]
    rfl

theorem pooledTasksLoop_ok (names : List String) (ν : Nat → String)
    (order : List (Nat × PyTask))
    (h : ∀ p ∈ order, pyIndex names p.1 = Except.ok (ν p.1)) :
    ∀ d, pooledTasksLoop names order d =
      Except.ok (buildDict (fun p => mkTaskResult (ν p.1) p.2) order d) := by
  induction order with
  | nil => intro d; rfl
  | cons p rest ih =>
    intro d
    obtain ⟨idx, task⟩ := p
    have hhead := h _ (List.mem_cons_self _ _)
    have htail := ih (fun q hq => h q (List.mem_cons_of_mem _ hq))
    simp only [pooledTasksLoop, hhead]
    exact htail _

theorem range_map_eq_enum_map {α β : Type} (l : List α) (f : Nat → β) (g : Nat × α → β)
    (h : ∀ p ∈ l.enum, f p.1 = g p) :
    (List.range l.length).map f = l.enum.map g := by
  apply List.ext_getElem
  · simp
  · intro n h1 h2
    have hlen : n < l.length := by simpa using h1
    have hen : n < l.enum.length := by simpa [List.enum_length] using hlen
    simp only [List.getElem_map, List.getElem_range]
    have henum : l.enum[n] = (n, l[n]) := List.getElem_enum l n hen
    rw [henum]
    have hmem : (n, l[n]) ∈ l.enum := by
      rw [List.mem_enum_iff_getElem?]
      exact List.getElem?_eq_getElem hlen
    exact h _ hmem

/-- The pooled branch of `run_parallel_tasks`: collecting into
`results_dict` and re-reading `[results_dict[i] for i in range(len(tasks))]`
yields exactly one result per task, in input order, for every completion
order. -/
theorem runParallelTasks_pooled_core (tasks : List PyTask) (order : List (Nat × PyTask))
    (names : List String) (tn : Option (List String))
    (horder : order.Perm tasks.enum)
    (hnm : ∀ p ∈ order, pyIndex names p.1 = Except.ok (nameFor tn p.1)) :
    (match pooledTasksLoop names order [] with
     | Except.error e => Except.error e
     | Except.ok d => listComp (fun i => pyDictGet d i) (List.range tasks.length)) =
      Except.ok (tasksExpected tn tasks) := by
  rw [pooledTasksLoop_ok names (nameFor tn) order hnm []]
  have hcomp : listComp
      (fun i => pyDictGet (buildDict (fun p => mkTaskResult (nameFor tn p.1) p.2) order []) i)
      (List.range tasks.length) =
      Except.ok ((List.range tasks.length).map
        (fun i => mkTaskResult (nameFor tn i) (tasks.getD i (Except.ok PyVal.none)))) := by
    apply listComp_ok
    intro i hi
    have hi' : i < tasks.length := List.mem_range.mp hi
    obtain ⟨t, ht⟩ := order_keys_mem horder hi'
    have hget := dictGet?_buildDict_mem (fun p => mkTaskResult (nameFor tn p.1) p.2)
      order [] i t (order_keys_nodup horder) ht
    have htask : tasks.get? i = some t := mem_order_get? horder ht
    rw [List.get?_eq_getElem?] at htask
    simp [pyDictGet, hget, List.getD_eq_getElem?_getD, htask]
  show listComp
      (fun i => pyDictGet (buildDict (fun p => mkTaskResult (nameFor tn p.1) p.2) order []) i)
      (List.range tasks.length) = Except.ok (tasksExpected tn tasks)
  rw [hcomp]
  congr 1
  rw [tasksExpected]
  apply range_map_eq_enum_map
  intro p hp
  have htask : tasks[p.1]? = some p.2 := List.mem_enum_iff_getElem?.mp hp
  simp [List.getD_eq_getElem?_getD, htask]

/-- Full characterization of `run_parallel_tasks`: for every completion
order and workable `task_names`, it returns one `ParallelResult` per task,
in input order, built by `safe_execute`. -/
theorem runParallelTasks_spec (pd : Bool) (tasks : List PyTask) (mw : Int)
    (tn : Option (List String)) (order : List (Nat × PyTask))
    (horder : order.Perm tasks.enum) (hn : NamesOk tn tasks.length) :
    run_parallel_tasks pd tasks mw tn order = Except.ok (tasksExpected tn tasks) := by
  unfold run_parallel_tasks
  split
  · rw [tasksExpected]
    exact seqTasksLoop_ok tn tasks.enum
      (fun p hp => taskNameAt_ok tn tasks.length p.1 hn (List.fst_lt_of_mem_enum hp))
  · split
    · rename_i hemp
      rw [List.isEmpty_iff] at hemp
      subst hemp
      rfl
    · have hlen : ∀ p ∈ order, p.1 < tasks.length :=
        fun p hp => List.fst_lt_of_mem_enum (horder.mem_iff.mp hp)
      cases htr : truthyNames tn with
      | none =>
        apply runParallelTasks_pooled_core tasks order _ tn horder
        intro p hp
        have hp1 : p.1 < tasks.length := hlen p hp
        have hb : p.1 < ((List.range tasks.length).map
            (fun i => "task_" ++ toString i)).length := by simpa using hp1
        rw [pyIndex_lt _ p.1 "" hb, nameFor, htr]
        congr 1
        simp [List.getD_eq_getElem?_getD, List.getElem?_range hp1]
      | some ns =>
        rw [NamesOk, htr] at hn
        apply runParallelTasks_pooled_core tasks order _ tn horder
        intro p hp
        rw [pyIndex_lt ns p.1 "" (lt_of_lt_of_le (hlen p hp) hn), nameFor, htr]

theorem buildDict_cons {τ β : Type} (f : Nat × τ → β) (p : Nat × τ) (rest : List (Nat × τ))
    (d : List (Nat × β)) : buildDict f (p :: rest) d = buildDict f rest (dictInsert d p.1 (f p)) :=
  rfl

theorem seqRegionsLoop_eq (l : List (String × PyTask)) (acc : List (String × ParallelResult))
    (hnd : (l.map Prod.fst).Nodup)
    (hdisj : ∀ k ∈ l.map Prod.fst, k ∉ acc.map Prod.fst) :
    seqRegionsLoop l acc = acc ++ l.map regionExpected := by
  induction l generalizing acc with
  | nil => simp [seqRegionsLoop]
  | cons p rest ih =>
    obtain ⟨k, t⟩ := p
    simp only [List.map_cons, List.nodup_cons] at hnd
    have hknotacc : k ∉ acc.map Prod.fst := hdisj k (by simp)
    have hins : dictInsert acc k (mkTaskResult k t) = acc ++ [(k, mkTaskResult k t)] :=
      dictInsert_of_not_mem _ _ _ hknotacc
    have hdisj' : ∀ k' ∈ rest.map Prod.fst,
        k' ∉ (acc ++ [(k, mkTaskResult k t)]).map Prod.fst := by
      intro k' hk'
      have h1 : k' ∉ acc.map Prod.fst := hdisj k' (by simp [hk'])
      have h2 : k' ≠ k := fun hc => hnd.1 (hc ▸ hk')
      simp [h1, h2]
    calc seqRegionsLoop ((k, t) :: rest) acc
        = seqRegionsLoop rest (dictInsert acc k (mkTaskResult k t)) := rfl
      _ = (acc ++ [(k, mkTaskResult k t)]) ++ rest.map regionExpected := by
          rw [hins]
          exact ih _ hnd.2 hdisj'
      _ = acc ++ ((k, t) :: rest).map regionExpected := by
          simp [regionExpected]

theorem regionsLoop_no_raise (ff : Bool) (l : List (String × PyTask))
    (acc : List (String × ParallelResult))
    (h : ff = false ∨ ∀ p ∈ l, ∃ v, p.2 = Except.ok v) :
    regionsLoop ff l acc = (seqRegionsLoop l acc, Option.none) := by
  induction l generalizing acc with
  | nil => rfl
  | cons p rest ih =>
    obtain ⟨k, t⟩ := p
    have htail : ff = false ∨ ∀ q ∈ rest, ∃ v, q.2 = Except.ok v :=
      h.imp id (fun hh q hq => hh q (List.mem_cons_of_mem _ hq))
    cases t with
    | ok v =>
      simp only [regionsLoop, safe_execute, if_true]
      exact ih _ htail
    | error e =>
      have hff : ff = false := by
        rcases h with hff | hall
        · exact hff
        · obtain ⟨v, hv⟩ := hall (k, Except.error e) (by simp)
          cases hv
      subst hff
      simp only [regionsLoop, safe_execute, Bool.false_eq_true, if_false]
      exact ih _ htail

theorem regionsLoop_failfast (pre rest : List (String × PyTask)) (k : String) (e : PyVal)
    (acc : List (String × ParallelResult))
    (hpre : ∀ p ∈ pre, ∃ v, p.2 = Except.ok v) :
    regionsLoop true (pre ++ (k, Except.error e) :: rest) acc =
      (dictInsert (seqRegionsLoop pre acc) k
        (ParallelResult.mk k false PyVal.none (some e)), some e) := by
  induction pre generalizing acc with
  | nil =>
    simp only [List.nil_append, regionsLoop, safe_execute, seqRegionsLoop,
      Bool.false_eq_true, if_false, if_true]
  | cons p pre' ih =>
    obtain ⟨k₀, t₀⟩ := p
    obtain ⟨v, hv⟩ := hpre (k₀, t₀) (by simp)
    simp only at hv
    subst hv
    simp only [List.cons_append, regionsLoop, safe_execute, if_true]
    exact ih _ (fun q hq => hpre q (List.mem_cons_of_mem _ hq))

/-- Characterization of `run_parallel_regions` whenever no `fail_fast`
re-raise can trigger (either `fail_fast` is off, or every task succeeds):
the call returns one entry per input key, a permutation of the expected
per-key results, for every completion order and any `max_workers`. -/
theorem runParallelRegions_ok_spec (pd : Bool) (entries : List (String × PyTask)) (mw : Int)
    (ff : Bool) (order : List (String × PyTask))
    (horder : order.Perm entries)
    (hnd : (entries.map Prod.fst).Nodup)
    (hsafe : ff = false ∨ ∀ p ∈ entries, ∃ v, p.2 = Except.ok v) :
    ∃ res, run_parallel_regions pd entries mw ff order = Except.ok res ∧
      res.Perm (entries.map regionExpected) := by
  unfold run_parallel_regions
  split
  · rename_i hemp
    rw [List.isEmpty_iff] at hemp
    subst hemp
    exact ⟨[], rfl, by simp⟩
  · split
    · refine ⟨run_sequential entries, rfl, ?_⟩
      rw [run_sequential, seqRegionsLoop_eq entries [] hnd (by simp)]
      simp
    · have hndo : (order.map Prod.fst).Nodup := ((horder.map Prod.fst).nodup_iff).mpr hnd
      have hsafe' : ff = false ∨ ∀ p ∈ order, ∃ v, p.2 = Except.ok v :=
        hsafe.imp id (fun hh p hp => hh p (horder.mem_iff.mp hp))
      rw [regionsLoop_no_raise ff order [] hsafe']
      refine ⟨seqRegionsLoop order [], rfl, ?_⟩
      rw [seqRegionsLoop_eq order [] hndo (by simp)]
      simpa using horder.map regionExpected

theorem seqMapLoop_eq (func : PyVal → PyTask) (l : List PyVal) :
    seqMapLoop func l = l.map (mapTriple func) := by
  induction l with
  | nil => rfl
  | cons a rest ih =>
    simp only [seqMapLoop, List.map_cons, ih]
    rfl

theorem pooledMapLoop_ok (func : PyVal → PyTask) (items : List PyVal)
    (inf : Option (PyVal → String)) (order : List (Nat × PyVal))
    (h : ∀ p ∈ order, pyIndex items p.1 = Except.ok p.2) :
    ∀ d log, ∃ log', pooledMapLoop func items inf order d log =
      (Except.ok (buildDict (fun p => mapTriple func p.2) order d), log') := by
  induction order with
  | nil => intro d log; exact ⟨log, rfl⟩
  | cons p rest ih =>
    intro d log
    obtain ⟨idx, submitted⟩ := p
    have hhead := h _ (List.mem_cons_self _ _)
    have htail := ih (fun q hq => h q (List.mem_cons_of_mem _ hq))
    cases hfs : func submitted with
    | ok r =>
      have hmt : mapTriple func submitted = (submitted, r, Option.none) := by
        simp [mapTriple, hfs]
      simp only [pooledMapLoop, hhead, hfs]
      rw [buildDict_cons, hmt]
      exact htail _ _
    | error e =>
      have hmt : mapTriple func submitted = (submitted, PyVal.none, some e) := by
        simp [mapTriple, hfs]
      simp only [pooledMapLoop, hhead, hfs]
      rw [buildDict_cons, hmt]
      exact htail _ _

/-- Full characterization of the returned triples of `run_parallel_map`:
for every completion order they are `mapTriple func` applied to the items,
in input order, with the original item in the first component. -/
theorem runParallelMap_spec (pd : Bool) (func : PyVal → PyTask) (items : List PyVal)
    (mw : Int) (inf : Option (PyVal → String)) (order : List (Nat × PyVal))
    (horder : order.Perm items.enum) :
    (run_parallel_map pd func items mw inf order).1 =
      Except.ok (items.map (mapTriple func)) := by
  unfold run_parallel_map
  split
  · simp [seqMapLoop_eq]
  · have h : ∀ p ∈ order, pyIndex items p.1 = Except.ok p.2 := by
      intro p hp
      have hget : items.get? p.1 = some p.2 := mem_order_get? horder hp
      rw [List.get?_eq_getElem?] at hget
      simp [pyIndex, List.get?_eq_getElem?, hget]
    obtain ⟨log', hl⟩ := pooledMapLoop_ok func items inf order h [] []
    rw [hl]
    show listComp
        (fun i => pyDictGet (buildDict (fun p => mapTriple func p.2) order []) i)
        (List.range items.length) = Except.ok (items.map (mapTriple func))
    have hcomp : listComp
        (fun i => pyDictGet (buildDict (fun p => mapTriple func p.2) order []) i)
        (List.range items.length) =
        Except.ok ((List.range items.length).map
          (fun i => mapTriple func (items.getD i PyVal.none))) := by
      apply listComp_ok
      intro i hi
      have hi' : i < items.length := List.mem_range.mp hi
      obtain ⟨t, ht⟩ := order_keys_mem horder hi'
      have hget := dictGet?_buildDict_mem (fun p => mapTriple func p.2)
        order [] i t (order_keys_nodup horder) ht
      have htask : items.get? i = some t := mem_order_get? horder ht
      rw [List.get?_eq_getElem?] at htask
      simp [pyDictGet, hget, List.getD_eq_getElem?_getD, htask]
    rw [hcomp]
    congr 1
    have hrhs : items.enum.map (fun p => mapTriple func p.2) = items.map (mapTriple func) := by
      conv_rhs => rw [← List.enum_map_snd items]
      rw [List.map_map]
      rfl
    rw [← hrhs]
    apply range_map_eq_enum_map
    intro p hp
    have htask : items[p.1]? = some p.2 := List.mem_enum_iff_getElem?.mp hp
    simp [List.getD_eq_getElem?_getD, htask]

theorem regionExpected_keys (entries : List (String × PyTask)) :
    (entries.map regionExpected).map Prod.fst = entries.map Prod.fst := by
  rw [List.map_map]
  rfl

theorem tasksExpected_getElem? (tn : Option (List String)) (tasks : List PyTask) (i : Nat) :
    (tasksExpected tn tasks)[i]? =
      (tasks[i]?).map (fun t => mkTaskResult (nameFor tn i) t) := by
  rw [tasksExpected, List.getElem?_map, List.getElem?_enum]
  cases tasks[i]? <;> rfl

/-- What `run_parallel_regions` does on the pooled path with
`fail_fast=True` when the completion order is `pre ++ failure :: rest` with
every task of `pre` succeeding: the failing task's result is recorded under
its key, on top of the already collected prefix, and then the original
error object is re-raised. -/
theorem runParallelRegions_failfast (entries : List (String × PyTask)) (mw : Int)
    (pre rest : List (String × PyTask)) (k : String) (e : PyVal)
    (horder : (pre ++ (k, Except.error e) :: rest).Perm entries)
    (hnd : ((pre ++ (k, Except.error e) :: rest).map Prod.fst).Nodup)
    (hpre : ∀ p ∈ pre, ∃ v, p.2 = Except.ok v)
    (hmw : 1 < mw) :
    run_parallel_regions false entries mw true (pre ++ (k, Except.error e) :: rest) =
      Except.error e ∧
    regionsLoop true (pre ++ (k, Except.error e) :: rest) [] =
      (pre.map regionExpected ++ [(k, ParallelResult.mk k false PyVal.none (some e))],
        some e) := by
  have hloop := regionsLoop_failfast pre rest k e [] hpre
  rw [List.map_append, List.map_cons, List.nodup_append] at hnd
  have hndpre : (pre.map Prod.fst).Nodup := hnd.1
  have hknotpre : k ∉ pre.map Prod.fst := fun hc =>
    hnd.2.2 hc (List.mem_cons_self _ _)
  have hseq : seqRegionsLoop pre [] = pre.map regionExpected := by
    simpa using seqRegionsLoop_eq pre [] hndpre (by simp)
  have hknotexp : k ∉ (pre.map regionExpected).map Prod.fst := by
    rw [regionExpected_keys]
    exact hknotpre
  have hins : dictInsert (pre.map regionExpected) k
      (ParallelResult.mk k false PyVal.none (some e)) =
      pre.map regionExpected ++ [(k, ParallelResult.mk k false PyVal.none (some e))] :=
    dictInsert_of_not_mem _ _ _ hknotexp
  have hstate : regionsLoop true (pre ++ (k, Except.error e) :: rest) [] =
      (pre.map regionExpected ++ [(k, ParallelResult.mk k false PyVal.none (some e))],
        some e) := by
    rw [hloop, hseq, hins]
  refine ⟨?_, hstate⟩
  have hne : entries ≠ [] := by
    intro hc
    subst hc
    have := horder.eq_nil
    simp at this
  unfold run_parallel_regions
  split
  · rename_i hemp
    exact ((hne (List.isEmpty_iff.mp hemp)).elim)
  · split
    · rename_i hcond
      exfalso
      simp only [Bool.false_or, decide_eq_true_eq] at hcond
      omega
    · rw [hstate]

theorem mkTaskResult_ok (name : String) (v : PyVal) :
    mkTaskResult name (Except.ok v) = ParallelResult.mk name true v Option.none := rfl

theorem mkTaskResult_error (name : String) (e : PyVal) :
    mkTaskResult name (Except.error e) =
      ParallelResult.mk name false PyVal.none (some e) := rfl

theorem mapTriple_ok (func : PyVal → PyTask) (item r : PyVal) (h : func item = Except.ok r) :
    mapTriple func item = (item, r, Option.none) := by simp [mapTriple, h]

theorem mapTriple_error (func : PyVal → PyTask) (item e : PyVal)
    (h : func item = Except.error e) :
    mapTriple func item = (item, PyVal.none, some e) := by simp [mapTriple, h]

theorem mapTriple_fst (func : PyVal → PyTask) (item : PyVal) :
    (mapTriple func item).1 = item := by
  cases h : func item with
  | ok r => simp [mapTriple, h]
  | error e => simp [mapTriple, h]

theorem runParallelTasks_seq (pd : Bool) (tasks : List PyTask) (mw : Int)
    (tn : Option (List String)) (orderT : List (Nat × PyTask)) (hmw : mw ≤ 1) :
    run_parallel_tasks pd tasks mw tn orderT = seqTasksLoop tn tasks.enum := by
  unfold run_parallel_tasks
  rw [if_pos]
  simp [hmw]

theorem runParallelRegions_seq (pd : Bool) (entries : List (String × PyTask)) (mw : Int)
    (ff : Bool) (orderR : List (String × PyTask)) (hmw : mw ≤ 1) :
    run_parallel_regions pd entries mw ff orderR = Except.ok (run_sequential entries) := by
  unfold run_parallel_regions
  split
  · rename_i hemp
    rw [List.isEmpty_iff] at hemp
    subst hemp
    rfl
  · rw [if_pos]
    simp [hmw]

theorem runParallelMap_seq (pd : Bool) (func : PyVal → PyTask) (items : List PyVal)
    (mw : Int) (inf : Option (PyVal → String)) (orderM : List (Nat × PyVal)) (hmw : mw ≤ 1) :
    run_parallel_map pd func items mw inf orderM = (Except.ok (seqMapLoop func items), []) := by
  unfold run_parallel_map
  rw [if_pos]
  simp [hmw]

theorem workerDefaults_pos (level : String) : 0 < workerDefaults level := by
  unfold workerDefaults
  split
  · norm_num [DEFAULT_REGION_WORKERS]
  · split
    · norm_num [DEFAULT_CLUSTER_WORKERS]
    · split
      · norm_num [DEFAULT_INSTANCE_WORKERS]
      · norm_num [DEFAULT_INSTANCE_WORKERS]

/-- Claim C1: for every input list and every completion order,
`run_parallel_tasks` and `run_parallel_map` return an output of the same
length as the input whose i-th entry is determined by the i-th input
task/item (for `run_parallel_map`, the first component of `output[i]` is
`items[i]`), regardless of completion order; and `run_parallel_regions`
returns exactly one entry per input key, with no dropped or duplicated
entries, for any `max_workers`. -/
theorem claim_C1 (pd : Bool) (mw : Int)
    (tasks : List PyTask) (tn : Option (List String)) (orderT : List (Nat × PyTask))
    (hordT : orderT.Perm tasks.enum) (hn : NamesOk tn tasks.length)
    (func : PyVal → PyTask) (items : List PyVal) (inf : Option (PyVal → String))
    (orderM : List (Nat × PyVal)) (hordM : orderM.Perm items.enum)
    (entries : List (String × PyTask)) (orderR : List (String × PyTask))
    (hordR : orderR.Perm entries) (hnd : (entries.map Prod.fst).Nodup) :
    (run_parallel_tasks pd tasks mw tn orderT = Except.ok (tasksExpected tn tasks) ∧
      (tasksExpected tn tasks).length = tasks.length ∧
      ∀ i : Nat, (tasksExpected tn tasks)[i]? =
        (tasks[i]?).map (fun t => mkTaskResult (nameFor tn i) t)) ∧
    ((run_parallel_map pd func items mw inf orderM).1 =
        Except.ok (items.map (mapTriple func)) ∧
      (items.map (mapTriple func)).length = items.length ∧
      ∀ i : Nat, ((items.map (mapTriple func))[i]?).map Prod.fst = items[i]?) ∧
    (∃ res, run_parallel_regions pd entries mw false orderR = Except.ok res ∧
      (res.map Prod.fst).Perm (entries.map Prod.fst)) := by
  refine ⟨⟨runParallelTasks_spec pd tasks mw tn orderT hordT hn, ?_, ?_⟩,
    ⟨runParallelMap_spec pd func items mw inf orderM hordM, ?_, ?_⟩, ?_⟩
  · simp [tasksExpected]
  · exact fun i => tasksExpected_getElem? tn tasks i
  · simp
  · intro i
    rw [List.getElem?_map]
    cases hi : items[i]? with
    | none => rfl
    | some it => simp [mapTriple_fst]
  · obtain ⟨res, hres, hperm⟩ :=
      runParallelRegions_ok_spec pd entries mw false orderR hordR hnd (Or.inl rfl)
    refine ⟨res, hres, ?_⟩
    have h1 := hperm.map Prod.fst
    rw [regionExpected_keys] at h1
    exact h1

theorem claim_C1_witness :
    (run_parallel_tasks false cexTasks 5 Option.none cexOrderT =
        Except.ok (tasksExpected Option.none cexTasks) ∧
      (tasksExpected Option.none cexTasks).length = cexTasks.length ∧
      ∀ i : Nat, (tasksExpected Option.none cexTasks)[i]? =
        (cexTasks[i]?).map (fun t => mkTaskResult (nameFor Option.none i) t)) ∧
    ((run_parallel_map false cexFunc cexItems 5 Option.none cexOrderM).1 =
        Except.ok (cexItems.map (mapTriple cexFunc)) ∧
      (cexItems.map (mapTriple cexFunc)).length = cexItems.length ∧
      ∀ i : Nat, ((cexItems.map (mapTriple cexFunc))[i]?).map Prod.fst = cexItems[i]?) ∧
    (∃ res, run_parallel_regions false cexEntries 5 false cexEntries = Except.ok res ∧
      (res.map Prod.fst).Perm (cexEntries.map Prod.fst)) :=
  claim_C1 false 5 cexTasks Option.none cexOrderT
    (List.Perm.swap (0, Except.ok (PyVal.int 1)) (1, Except.error excBoom) [])
    trivial
    cexFunc cexItems Option.none cexOrderM
    (List.Perm.swap (0, PyVal.int 0) (1, PyVal.int 3) [])
    cexEntries cexEntries (List.Perm.refl _) (by decide)

/-- Claim C2: in a task collection where exactly task k raises and every
other task returns normally, each dispatch variant yields an output whose
entry for k has `success = false` and carries exactly the raised error,
while every other entry has `success = true` and carries its task's return
value; no failure affects a sibling's entry. -/
theorem claim_C2 (pd : Bool) (mw : Int)
    (tasks : List PyTask) (tn : Option (List String)) (orderT : List (Nat × PyTask))
    (hordT : orderT.Perm tasks.enum) (hn : NamesOk tn tasks.length)
    (kT : Nat) (eT : PyVal) (hkT : tasks[kT]? = some (Except.error eT))
    (hothersT : ∀ j : Nat, j ≠ kT → ∀ t, tasks[j]? = some t → ∃ v, t = Except.ok v)
    (func : PyVal → PyTask) (items : List PyVal) (inf : Option (PyVal → String))
    (orderM : List (Nat × PyVal)) (hordM : orderM.Perm items.enum)
    (kM : Nat) (itM eM : PyVal) (hkM : items[kM]? = some itM)
    (hfM : func itM = Except.error eM)
    (hothersM : ∀ j : Nat, j ≠ kM → ∀ it, items[j]? = some it → ∃ v, func it = Except.ok v)
    (entries : List (String × PyTask)) (orderR : List (String × PyTask))
    (hordR : orderR.Perm entries) (hnd : (entries.map Prod.fst).Nodup)
    (kR : String) (eR : PyVal) (hkR : (kR, Except.error eR) ∈ entries)
    (hothersR : ∀ p ∈ entries, p.1 ≠ kR → ∃ v, p.2 = Except.ok v) :
    (∃ out, run_parallel_tasks pd tasks mw tn orderT = Except.ok out ∧
      out[kT]? = some (ParallelResult.mk (nameFor tn kT) false PyVal.none (some eT)) ∧
      ∀ j : Nat, j ≠ kT → ∀ r, out[j]? = some r →
        r.success = true ∧ r.error = Option.none ∧
          tasks[j]? = some (Except.ok r.result)) ∧
    (∃ outM, (run_parallel_map pd func items mw inf orderM).1 = Except.ok outM ∧
      outM[kM]? = some (itM, PyVal.none, some eM) ∧
      ∀ j : Nat, j ≠ kM → ∀ trip, outM[j]? = some trip →
        trip.2.2 = Option.none ∧ items[j]? = some trip.1 ∧
          func trip.1 = Except.ok trip.2.1) ∧
    (∃ res, run_parallel_regions pd entries mw false orderR = Except.ok res ∧
      (kR, ParallelResult.mk kR false PyVal.none (some eR)) ∈ res ∧
      ∀ q ∈ res, q.1 ≠ kR →
        q.2.success = true ∧ q.2.error = Option.none ∧
          (q.1, Except.ok q.2.result) ∈ entries) := by
  refine ⟨⟨tasksExpected tn tasks, runParallelTasks_spec pd tasks mw tn orderT hordT hn, ?_, ?_⟩,
    ⟨items.map (mapTriple func), runParallelMap_spec pd func items mw inf orderM hordM, ?_, ?_⟩,
    ?_⟩
  · rw [tasksExpected_getElem? tn tasks kT, hkT]
    rfl
  · intro j hj r hr
    rw [tasksExpected_getElem? tn tasks j] at hr
    cases ht : tasks[j]? with
    | none => rw [ht] at hr; cases hr
    | some t =>
      rw [ht] at hr
      obtain ⟨v, hv⟩ := hothersT j hj t ht
      subst hv
      simp only [Option.map_some', mkTaskResult_ok] at hr
      obtain rfl := Option.some.inj hr
      exact ⟨rfl, rfl, rfl⟩
  · rw [List.getElem?_map, hkM]
    simp only [Option.map_some', mapTriple_error func itM eM hfM]
  · intro j hj trip htr
    rw [List.getElem?_map] at htr
    cases hit : items[j]? with
    | none => rw [hit] at htr; cases htr
    | some it =>
      rw [hit] at htr
      obtain ⟨v, hv⟩ := hothersM j hj it hit
      simp only [Option.map_some', mapTriple_ok func it v hv] at htr
      obtain rfl := Option.some.inj htr
      exact ⟨rfl, rfl, hv⟩
  · obtain ⟨res, hres, hperm⟩ :=
      runParallelRegions_ok_spec pd entries mw false orderR hordR hnd (Or.inl rfl)
    refine ⟨res, hres, ?_, ?_⟩
    · have hmem : (kR, ParallelResult.mk kR false PyVal.none (some eR)) ∈
          entries.map regionExpected := by
        have := List.mem_map_of_mem regionExpected hkR
        simpa [regionExpected, mkTaskResult_error] using this
      exact hperm.mem_iff.mpr hmem
    · intro q hq hqk
      have hq' : q ∈ entries.map regionExpected := hperm.mem_iff.mp hq
      obtain ⟨p, hp, hpq⟩ := List.mem_map.mp hq'
      have hp1 : p.1 ≠ kR := by
        intro hc
        apply hqk
        rw [← hpq, regionExpected]
        exact hc
      obtain ⟨v, hv⟩ := hothersR p hp hp1
      have hq2 : q = (p.1, ParallelResult.mk p.1 true v Option.none) := by
        rw [← hpq, regionExpected, hv, mkTaskResult_ok]
      subst hq2
      refine ⟨rfl, rfl, ?_⟩
      have hpv : p = (p.1, Except.ok v) := by
        obtain ⟨p1, p2⟩ := p
        simp only at hv
        rw [hv]
      rw [← hpv]
      exact hp

/-- Claim C3: with `fail_fast` at its default `false`, no exception raised
by a task escapes any of the three dispatchers: each returns a normal
output with one entry per task, for every input and completion order. -/
theorem claim_C3 (pd : Bool) (mw : Int)
    (tasks : List PyTask) (tn : Option (List String)) (orderT : List (Nat × PyTask))
    (hordT : orderT.Perm tasks.enum) (hn : NamesOk tn tasks.length)
    (func : PyVal → PyTask) (items : List PyVal) (inf : Option (PyVal → String))
    (orderM : List (Nat × PyVal)) (hordM : orderM.Perm items.enum)
    (entries : List (String × PyTask)) (orderR : List (String × PyTask))
    (hordR : orderR.Perm entries) (hnd : (entries.map Prod.fst).Nodup) :
    (∃ out, run_parallel_tasks pd tasks mw tn orderT = Except.ok out ∧
      out.length = tasks.length) ∧
    (∃ outM, (run_parallel_map pd func items mw inf orderM).1 = Except.ok outM ∧
      outM.length = items.length) ∧
    (∃ res, run_parallel_regions pd entries mw false orderR = Except.ok res ∧
      res.length = entries.length) := by
  refine ⟨⟨tasksExpected tn tasks, runParallelTasks_spec pd tasks mw tn orderT hordT hn, ?_⟩,
    ⟨items.map (mapTriple func), runParallelMap_spec pd func items mw inf orderM hordM, ?_⟩,
    ?_⟩
  · simp [tasksExpected]
  · simp
  · obtain ⟨res, hres, hperm⟩ :=
      runParallelRegions_ok_spec pd entries mw false orderR hordR hnd (Or.inl rfl)
    refine ⟨res, hres, ?_⟩
    have := hperm.length_eq
    simpa using this

theorem claim_C2_witness :
    (∃ out, run_parallel_tasks false cexTasks 5 Option.none cexOrderT = Except.ok out ∧
      out[1]? = some (ParallelResult.mk (nameFor Option.none 1) false PyVal.none (some excBoom)) ∧
      ∀ j : Nat, j ≠ 1 → ∀ r, out[j]? = some r →
        r.success = true ∧ r.error = Option.none ∧
          cexTasks[j]? = some (Except.ok r.result)) ∧
    (∃ outM, (run_parallel_map false cexFunc cexItems 5 Option.none cexOrderM).1 =
        Except.ok outM ∧
      outM[0]? = some (PyVal.int 0, PyVal.none, some excBoom) ∧
      ∀ j : Nat, j ≠ 0 → ∀ trip, outM[j]? = some trip →
        trip.2.2 = Option.none ∧ cexItems[j]? = some trip.1 ∧
          cexFunc trip.1 = Except.ok trip.2.1) ∧
    (∃ res, run_parallel_regions false cexEntries 5 false cexEntries = Except.ok res ∧
      ("b", ParallelResult.mk "b" false PyVal.none (some excBoom)) ∈ res ∧
      ∀ q ∈ res, q.1 ≠ "b" →
        q.2.success = true ∧ q.2.error = Option.none ∧
          (q.1, Except.ok q.2.result) ∈ cexEntries) :=
  claim_C2 false 5 cexTasks Option.none cexOrderT
    (List.Perm.swap (0, Except.ok (PyVal.int 1)) (1, Except.error excBoom) [])
    trivial
    1 excBoom rfl
    (by
      intro j hj t ht
      rcases j with _ | _ | j
      · exact ⟨PyVal.int 1, (Option.some.inj ht).symm⟩
      · exact absurd rfl hj
      · simp [cexTasks] at ht)
    cexFunc cexItems Option.none cexOrderM
    (List.Perm.swap (0, PyVal.int 0) (1, PyVal.int 3) [])
    0 (PyVal.int 0) excBoom rfl rfl
    (by
      intro j hj it hit
      rcases j with _ | _ | j
      · exact absurd rfl hj
      · have hit3 : it = PyVal.int 3 := (Option.some.inj hit).symm
        subst hit3
        exact ⟨PyVal.int 4, by decide⟩
      · simp [cexItems] at hit)
    cexEntries cexEntries (List.Perm.refl _) (by decide)
    "b" excBoom (by simp [cexEntries])
    (by
      intro p hp hpk
      simp only [cexEntries, List.mem_cons, List.not_mem_nil, or_false] at hp
      rcases hp with rfl | rfl
      · exact ⟨PyVal.int 7, rfl⟩
      · exact absurd rfl hpk)

theorem claim_C3_witness :
    (∃ out, run_parallel_tasks false cexTasks 5 Option.none cexOrderT = Except.ok out ∧
      out.length = cexTasks.length) ∧
    (∃ outM, (run_parallel_map false cexFunc cexItems 5 Option.none cexOrderM).1 =
        Except.ok outM ∧ outM.length = cexItems.length) ∧
    (∃ res, run_parallel_regions false cexEntries 5 false cexEntries = Except.ok res ∧
      res.length = cexEntries.length) :=
  claim_C3 false 5 cexTasks Option.none cexOrderT
    (List.Perm.swap (0, Except.ok (PyVal.int 1)) (1, Except.error excBoom) [])
    trivial
    cexFunc cexItems Option.none cexOrderM
    (List.Perm.swap (0, PyVal.int 0) (1, PyVal.int 3) [])
    cexEntries cexEntries (List.Perm.refl _) (by decide)

/-- Claim C4, amended to the parallel path (parallel not disabled and
`max_workers > 1`): for every keyed task map containing a failing task,
`run_parallel_regions` with `fail_fast = true` re-raises the first failure
observed in completion order, the re-raised value is the original error
object unchanged, and the raise happens only after the failing task's
`ParallelResult` has been recorded for its key in the internal results
dict (the second conjunct exposes that state).  On the sequential path
(`max_workers ≤ 1` or parallel disabled) `fail_fast` is silently ignored,
so the unamended claim fails there. -/
theorem claim_C4 (entries : List (String × PyTask)) (mw : Int)
    (pre rest : List (String × PyTask)) (k : String) (e : PyVal)
    (horder : (pre ++ (k, Except.error e) :: rest).Perm entries)
    (hnd : ((pre ++ (k, Except.error e) :: rest).map Prod.fst).Nodup)
    (hpre : ∀ p ∈ pre, ∃ v, p.2 = Except.ok v)
    (hmw : 1 < mw) :
    run_parallel_regions false entries mw true (pre ++ (k, Except.error e) :: rest) =
      Except.error e ∧
    regionsLoop true (pre ++ (k, Except.error e) :: rest) [] =
      (pre.map regionExpected ++ [(k, ParallelResult.mk k false PyVal.none (some e))],
        some e) :=
  runParallelRegions_failfast entries mw pre rest k e horder hnd hpre hmw

theorem claim_C4_witness :
    run_parallel_regions false cexEntries 2 true
        ([("a", Except.ok (PyVal.int 7))] ++ ("b", Except.error excBoom) :: []) =
      Except.error excBoom ∧
    regionsLoop true ([("a", Except.ok (PyVal.int 7))] ++ ("b", Except.error excBoom) :: []) [] =
      ([("a", Except.ok (PyVal.int 7))].map regionExpected ++
        [("b", ParallelResult.mk "b" false PyVal.none (some excBoom))], some excBoom) :=
  claim_C4 cexEntries 2 [("a", Except.ok (PyVal.int 7))] [] "b" excBoom
    (List.Perm.refl _) (by decide)
    (by
      intro p hp
      rw [List.mem_singleton] at hp
      subst hp
      exact ⟨PyVal.int 7, rfl⟩)
    (by norm_num)

/-- Claim C5 as stated is false: with `fail_fast = true` and a failing
task, the sequential path (`max_workers = 1`) ignores `fail_fast` and
returns a full result dict, while the pooled path (`max_workers = 2`)
raises — the two collections of results differ. -/
theorem claim_C5_counterexample :
    run_parallel_regions false cexFail 1 true cexFail =
      Except.ok [("r", ParallelResult.mk "r" false PyVal.none (some excBoom))] ∧
    run_parallel_regions false cexFail 2 true cexFail = Except.error excBoom ∧
    run_parallel_regions false cexFail 1 true cexFail ≠
      run_parallel_regions false cexFail 2 true cexFail := by
  refine ⟨rfl, rfl, ?_⟩
  intro hc
  rw [show run_parallel_regions false cexFail 1 true cexFail =
      Except.ok [("r", ParallelResult.mk "r" false PyVal.none (some excBoom))] from rfl,
    show run_parallel_regions false cexFail 2 true cexFail = Except.error excBoom from rfl] at hc
  cases hc

/-- Claim C5, amended: for a fixed task collection the collection of
results (ignoring timing and iteration order) is independent of
`max_workers` and of the parallel-disabled flag for `run_parallel_tasks`
and `run_parallel_map` always, and for `run_parallel_regions` whenever
`fail_fast` is false or every task succeeds; with `fail_fast = true` and a
failing task the pooled path raises while the sequential path ignores
`fail_fast`, so the equivalence does not extend to that case. -/
theorem claim_C5_amended (pd pd' : Bool) (mw mw' : Int) (ff : Bool)
    (tasks : List PyTask) (tn : Option (List String))
    (orderT orderT' : List (Nat × PyTask))
    (hordT : orderT.Perm tasks.enum) (hordT' : orderT'.Perm tasks.enum)
    (hn : NamesOk tn tasks.length)
    (func : PyVal → PyTask) (items : List PyVal) (inf : Option (PyVal → String))
    (orderM orderM' : List (Nat × PyVal))
    (hordM : orderM.Perm items.enum) (hordM' : orderM'.Perm items.enum)
    (entries : List (String × PyTask)) (orderR orderR' : List (String × PyTask))
    (hordR : orderR.Perm entries) (hordR' : orderR'.Perm entries)
    (hnd : (entries.map Prod.fst).Nodup) :
    run_parallel_tasks pd tasks mw tn orderT =
      run_parallel_tasks pd' tasks mw' tn orderT' ∧
    (run_parallel_map pd func items mw inf orderM).1 =
      (run_parallel_map pd' func items mw' inf orderM').1 ∧
    ((ff = false ∨ ∀ p ∈ entries, ∃ v, p.2 = Except.ok v) →
      ∃ r1 r2, run_parallel_regions pd entries mw ff orderR = Except.ok r1 ∧
        run_parallel_regions pd' entries mw' ff orderR' = Except.ok r2 ∧
        r1.Perm r2) := by
  refine ⟨?_, ?_, ?_⟩
  · rw [runParallelTasks_spec pd tasks mw tn orderT hordT hn,
      runParallelTasks_spec pd' tasks mw' tn orderT' hordT' hn]
  · rw [runParallelMap_spec pd func items mw inf orderM hordM,
      runParallelMap_spec pd' func items mw' inf orderM' hordM']
  · intro hsafe
    obtain ⟨r1, h1, hp1⟩ :=
      runParallelRegions_ok_spec pd entries mw ff orderR hordR hnd hsafe
    obtain ⟨r2, h2, hp2⟩ :=
      runParallelRegions_ok_spec pd' entries mw' ff orderR' hordR' hnd hsafe
    exact ⟨r1, r2, h1, h2, hp1.trans hp2.symm⟩

theorem claim_C5_amended_witness :
    run_parallel_tasks false cexTasks 1 Option.none cexTasks.enum =
      run_parallel_tasks false cexTasks 5 Option.none cexOrderT ∧
    (run_parallel_map false cexFunc cexItems 1 Option.none cexItems.enum).1 =
      (run_parallel_map false cexFunc cexItems 5 Option.none cexOrderM).1 ∧
    ((false = false ∨ ∀ p ∈ cexEntries, ∃ v, p.2 = Except.ok v) →
      ∃ r1 r2, run_parallel_regions false cexEntries 1 false cexEntries = Except.ok r1 ∧
        run_parallel_regions false cexEntries 5 false cexEntries = Except.ok r2 ∧
        r1.Perm r2) :=
  claim_C5_amended false false 1 5 false cexTasks Option.none cexTasks.enum cexOrderT
    (List.Perm.refl _)
    (List.Perm.swap (0, Except.ok (PyVal.int 1)) (1, Except.error excBoom) [])
    trivial
    cexFunc cexItems Option.none cexItems.enum cexOrderM
    (List.Perm.refl _)
    (List.Perm.swap (0, PyVal.int 0) (1, PyVal.int 3) [])
    cexEntries cexEntries cexEntries (List.Perm.refl _) (List.Perm.refl _) (by decide)

theorem mkTaskResult_inv (name : String) (t : PyTask) :
    ((mkTaskResult name t).success = true → (mkTaskResult name t).error = Option.none) ∧
    ((mkTaskResult name t).success = false →
      (mkTaskResult name t).result = PyVal.none ∧
        (mkTaskResult name t).error ≠ Option.none) := by
  cases t with
  | ok v =>
    rw [mkTaskResult_ok]
    refine ⟨fun _ => rfl, fun hc => ?_⟩
    cases hc
  | error e =>
    rw [mkTaskResult_error]
    refine ⟨fun hc => ?_, fun _ => ⟨rfl, ?_⟩⟩
    · cases hc
    · simp

theorem mapTriple_inv (func : PyVal → PyTask) (it : PyVal) :
    (mapTriple func it).2.2 ≠ Option.none → (mapTriple func it).2.1 = PyVal.none := by
  cases h : func it with
  | ok r => simp [mapTriple, h]
  | error e => simp [mapTriple, h]

/-- Claim C6 as stated is false on a task whose successful return value is
the Python `None` object: `run_parallel_tasks` then yields an entry with
`success = true` but `result = None`, and `run_parallel_map` yields a
triple whose `result` component is `None` while its `error` component is
also `None`, refuting both "`result` is populated when `success` is true"
and "`result` is `None` iff `error` is not `None`". -/
theorem claim_C6_counterexample :
    run_parallel_tasks false [Except.ok PyVal.none] 1 Option.none [] =
      Except.ok [ParallelResult.mk "task_0" true PyVal.none Option.none] ∧
    (run_parallel_map false constNoneFunc [PyVal.int 0] 1 Option.none []).1 =
      Except.ok [(PyVal.int 0, PyVal.none, Option.none)] ∧
    ¬ ((ParallelResult.mk "task_0" true PyVal.none Option.none).success = true →
        (ParallelResult.mk "task_0" true PyVal.none Option.none).result ≠ PyVal.none) ∧
    ¬ (((PyVal.int 0, PyVal.none, Option.none) : MapTriple).2.1 = PyVal.none ↔
        ((PyVal.int 0, PyVal.none, Option.none) : MapTriple).2.2 ≠ Option.none) :=
  ⟨rfl, rfl, by decide, by decide⟩


/-- Claim C6, amended: every `ParallelResult` produced by the dispatchers
has `error = None` when `success` is true, and `result = None` with a
populated `error` when `success` is false; and in every `run_parallel_map`
triple a populated `error` forces `result = None` — but a successful task
returning the Python `None` object yields `result = None` with
`error = None`, so "`result` is `None` iff `error` is not `None`" holds
only from right to left, and on success `result` carries the task's return
value even when that value is `None`. -/
theorem claim_C6_amended (pd : Bool) (mw : Int)
    (tasks : List PyTask) (tn : Option (List String)) (orderT : List (Nat × PyTask))
    (hordT : orderT.Perm tasks.enum) (hn : NamesOk tn tasks.length)
    (func : PyVal → PyTask) (items : List PyVal) (inf : Option (PyVal → String))
    (orderM : List (Nat × PyVal)) (hordM : orderM.Perm items.enum)
    (entries : List (String × PyTask)) (orderR : List (String × PyTask))
    (hordR : orderR.Perm entries) (hnd : (entries.map Prod.fst).Nodup) :
    (∀ out, run_parallel_tasks pd tasks mw tn orderT = Except.ok out →
      ∀ r ∈ out, (r.success = true → r.error = Option.none) ∧
        (r.success = false → r.result = PyVal.none ∧ r.error ≠ Option.none)) ∧
    (∀ outM, (run_parallel_map pd func items mw inf orderM).1 = Except.ok outM →
      ∀ trip ∈ outM, trip.2.2 ≠ Option.none → trip.2.1 = PyVal.none) ∧
    (∀ res, run_parallel_regions pd entries mw false orderR = Except.ok res →
      ∀ q ∈ res, (q.2.success = true → q.2.error = Option.none) ∧
        (q.2.success = false → q.2.result = PyVal.none ∧ q.2.error ≠ Option.none)) := by
  refine ⟨?_, ?_, ?_⟩
  · intro out hout r hr
    rw [runParallelTasks_spec pd tasks mw tn orderT hordT hn] at hout
    obtain rfl := Except.ok.inj hout
    rw [tasksExpected] at hr
    obtain ⟨p, _, hpr⟩ := List.mem_map.mp hr
    rw [← hpr]
    exact mkTaskResult_inv _ _
  · intro outM houtM trip htrip
    rw [runParallelMap_spec pd func items mw inf orderM hordM] at houtM
    obtain rfl := Except.ok.inj houtM
    obtain ⟨it, _, hit⟩ := List.mem_map.mp htrip
    rw [← hit]
    exact mapTriple_inv func it
  · intro res hres q hq
    obtain ⟨res', hres', hperm⟩ :=
      runParallelRegions_ok_spec pd entries mw false orderR hordR hnd (Or.inl rfl)
    rw [hres'] at hres
    obtain rfl := Except.ok.inj hres
    have hq' : q ∈ entries.map regionExpected := hperm.mem_iff.mp hq
    obtain ⟨p, _, hpq⟩ := List.mem_map.mp hq'
    rw [← hpq, regionExpected]
    exact mkTaskResult_inv _ _

theorem claim_C6_amended_witness :
    (∀ out, run_parallel_tasks false cexTasks 5 Option.none cexOrderT = Except.ok out →
      ∀ r ∈ out, (r.success = true → r.error = Option.none) ∧
        (r.success = false → r.result = PyVal.none ∧ r.error ≠ Option.none)) ∧
    (∀ outM, (run_parallel_map false cexFunc cexItems 5 Option.none cexOrderM).1 =
        Except.ok outM →
      ∀ trip ∈ outM, trip.2.2 ≠ Option.none → trip.2.1 = PyVal.none) ∧
    (∀ res, run_parallel_regions false cexEntries 5 false cexEntries = Except.ok res →
      ∀ q ∈ res, (q.2.success = true → q.2.error = Option.none) ∧
        (q.2.success = false → q.2.result = PyVal.none ∧ q.2.error ≠ Option.none)) :=
  claim_C6_amended false 5 cexTasks Option.none cexOrderT
    (List.Perm.swap (0, Except.ok (PyVal.int 1)) (1, Except.error excBoom) [])
    trivial
    cexFunc cexItems Option.none cexOrderM
    (List.Perm.swap (0, PyVal.int 0) (1, PyVal.int 3) [])
    cexEntries cexEntries (List.Perm.refl _) (by decide)

/-- Claim C7: every dispatcher returns the empty collection on empty input
(for any `max_workers`, including 0 or negative, and any completion
order), and a `max_workers` of 0 or negative is treated as the sequential
case on every input — no exception is ever raised for such values. -/
theorem claim_C7 (pd ff : Bool) (mw₀ mw : Int) (tn : Option (List String))
    (func : PyVal → PyTask) (inf : Option (PyVal → String))
    (orderT : List (Nat × PyTask)) (orderM : List (Nat × PyVal))
    (orderR : List (String × PyTask))
    (tasks : List PyTask) (entries : List (String × PyTask)) (items : List PyVal)
    (hmw : mw ≤ 0) (hn : NamesOk tn tasks.length) :
    run_parallel_regions pd [] mw₀ ff orderR = Except.ok [] ∧
    run_parallel_tasks pd [] mw₀ tn orderT = Except.ok [] ∧
    run_parallel_map pd func [] mw₀ inf orderM = (Except.ok [], []) ∧
    run_parallel_regions pd entries mw ff orderR = Except.ok (run_sequential entries) ∧
    run_parallel_tasks pd tasks mw tn orderT = Except.ok (tasksExpected tn tasks) ∧
    run_parallel_map pd func items mw inf orderM = (Except.ok (seqMapLoop func items), []) := by
  refine ⟨rfl, ?_, ?_, ?_, ?_, ?_⟩
  · unfold run_parallel_tasks
    split
    · rfl
    · rfl
  · unfold run_parallel_map
    rw [if_pos]
    · rfl
    · simp
  · exact runParallelRegions_seq pd entries mw ff orderR (by omega)
  · rw [runParallelTasks_seq pd tasks mw tn orderT (by omega)]
    exact seqTasksLoop_ok tn tasks.enum
      (fun p hp => taskNameAt_ok tn tasks.length p.1 hn (List.fst_lt_of_mem_enum hp))
  · exact runParallelMap_seq pd func items mw inf orderM (by omega)

theorem claim_C7_witness :
    run_parallel_regions false [] 7 false cexEntries = Except.ok [] ∧
    run_parallel_tasks false [] 7 Option.none cexOrderT = Except.ok [] ∧
    run_parallel_map false cexFunc [] 7 Option.none cexOrderM = (Except.ok [], []) ∧
    run_parallel_regions false cexEntries 0 false cexEntries =
      Except.ok (run_sequential cexEntries) ∧
    run_parallel_tasks false cexTasks 0 Option.none cexOrderT =
      Except.ok (tasksExpected Option.none cexTasks) ∧
    run_parallel_map false cexFunc cexItems 0 Option.none cexOrderM =
      (Except.ok (seqMapLoop cexFunc cexItems), []) :=
  claim_C7 false false 7 0 Option.none cexFunc Option.none cexOrderT cexOrderM cexEntries
    cexTasks cexEntries cexItems (by norm_num) trivial

/-- Claim C8: `get_worker_count` returns `min override item_count` when an
override is given (for every tier string `lvl`, recognized or not),
otherwise `min tier_default item_count` with the fixed defaults
region = 4, cluster = 6, instance = 10, and an unrecognized tier string
(`level`, constrained by `h1`-`h3` only in the last conjunct) falls back
to the instance default 10 rather than raising. -/
theorem claim_C8 (lvl level : String) (item_count o : Int)
    (h1 : level ≠ "region") (h2 : level ≠ "cluster") (h3 : level ≠ "instance") :
    get_worker_count lvl item_count (some o) = min o item_count ∧
    get_worker_count "region" item_count Option.none = min 4 item_count ∧
    get_worker_count "cluster" item_count Option.none = min 6 item_count ∧
    get_worker_count "instance" item_count Option.none = min 10 item_count ∧
    get_worker_count level item_count Option.none = min 10 item_count := by
  refine ⟨rfl, ?_, ?_, ?_, ?_⟩
  · simp [get_worker_count, workerDefaults, DEFAULT_REGION_WORKERS]
  · simp [get_worker_count, workerDefaults, DEFAULT_CLUSTER_WORKERS]
  · simp [get_worker_count, workerDefaults, DEFAULT_INSTANCE_WORKERS]
  · simp [get_worker_count, workerDefaults, h1, h2, h3, DEFAULT_INSTANCE_WORKERS]

theorem claim_C8_witness :
    get_worker_count "region" 7 (some 3) = min 3 7 ∧
    get_worker_count "region" 7 Option.none = min 4 7 ∧
    get_worker_count "cluster" 7 Option.none = min 6 7 ∧
    get_worker_count "instance" 7 Option.none = min 10 7 ∧
    get_worker_count "fleet" 7 Option.none = min 10 7 :=
  claim_C8 "region" "fleet" 7 3 (by decide) (by decide) (by decide)

theorem pooledMapLoop_fst_ind (func : PyVal → PyTask) (items : List PyVal)
    (inf₁ inf₂ : Option (PyVal → String)) (order : List (Nat × PyVal)) :
    ∀ d log₁ log₂,
      (pooledMapLoop func items inf₁ order d log₁).1 =
        (pooledMapLoop func items inf₂ order d log₂).1 := by
  induction order with
  | nil => intro d l1 l2; rfl
  | cons p rest ih =>
    intro d l1 l2
    obtain ⟨idx, sub⟩ := p
    cases hpi : pyIndex items idx with
    | error e => simp [pooledMapLoop, hpi]
    | ok item =>
      cases hfs : func sub with
      | ok r =>
        simp only [pooledMapLoop, hpi, hfs]
        exact ih _ _ _
      | error e =>
        simp only [pooledMapLoop, hpi, hfs]
        exact ih _ _ _

/-- Claim C9: the returned triples of `run_parallel_map` (every item,
result and error component, and their order) are identical whatever
`item_name_func` is passed; the naming function influences only the
warning-log side channel, never the returned value. -/
theorem claim_C9 (pd : Bool) (func : PyVal → PyTask) (items : List PyVal) (mw : Int)
    (inf₁ inf₂ : Option (PyVal → String)) (order : List (Nat × PyVal)) :
    (run_parallel_map pd func items mw inf₁ order).1 =
      (run_parallel_map pd func items mw inf₂ order).1 := by
  unfold run_parallel_map
  split
  · rfl
  · have hind := pooledMapLoop_fst_ind func items inf₁ inf₂ order [] [] []
    rcases h1 : pooledMapLoop func items inf₁ order [] [] with ⟨res1, log1⟩
    rcases h2 : pooledMapLoop func items inf₂ order [] [] with ⟨res2, log2⟩
    rw [h1, h2] at hind
    have hres : res1 = res2 := hind
    subst hres
    cases res1 <;> rfl

/-- Claim C10: `get_worker_count` has no lower clamp: it returns 0 when
`item_count` is 0 (override absent or non-negative), a negative override
or negative `item_count` yields a negative result, and such a worker count
of 0 or less is interpreted by the dispatchers as sequential mode. -/
theorem claim_C10 (level : String) (icAny ic o o₂ : Int) (ov : Option Int)
    (pd ff : Bool) (entries : List (String × PyTask)) (orderR : List (String × PyTask))
    (ho₂ : 0 ≤ o₂) (ho : o < 0) (hic : ic < 0) :
    get_worker_count level 0 Option.none = 0 ∧
    get_worker_count level 0 (some o₂) = 0 ∧
    get_worker_count level icAny (some o) < 0 ∧
    get_worker_count level ic ov < 0 ∧
    run_parallel_regions pd entries (get_worker_count level 0 Option.none) ff orderR =
      Except.ok (run_sequential entries) := by
  have hd := workerDefaults_pos level
  have hz : get_worker_count level 0 Option.none = 0 := by
    show min (workerDefaults level) 0 = 0
    exact min_eq_right (le_of_lt hd)
  refine ⟨hz, ?_, ?_, ?_, ?_⟩
  · show min o₂ 0 = 0
    exact min_eq_right ho₂
  · exact lt_of_le_of_lt (min_le_left o icAny) ho
  · cases ov with
    | none => exact lt_of_le_of_lt (min_le_right (workerDefaults level) ic) hic
    | some o₃ => exact lt_of_le_of_lt (min_le_right o₃ ic) hic
  · rw [hz]
    exact runParallelRegions_seq pd entries 0 ff orderR (by norm_num)

theorem claim_C10_witness :
    get_worker_count "cluster" 0 Option.none = 0 ∧
    get_worker_count "cluster" 0 (some 5) = 0 ∧
    get_worker_count "cluster" 9 (some (-3)) < 0 ∧
    get_worker_count "cluster" (-2) Option.none < 0 ∧
    run_parallel_regions false cexEntries (get_worker_count "cluster" 0 Option.none)
        false cexEntries = Except.ok (run_sequential cexEntries) :=
  claim_C10 "cluster" 9 (-2) (-3) 5 Option.none false false cexEntries cexEntries
    (by norm_num) (by norm_num) (by norm_num)

/-- Claim C4 as stated (covering also the sequential path its sources
cite) is false: with `max_workers = 1` the sequential fallback runs and
silently ignores `fail_fast = true`, returning a full result dict instead
of re-raising the failing task's error. -/
theorem claim_C4_counterexample :
    run_parallel_regions false cexFail 1 true cexFail =
      Except.ok [("r", ParallelResult.mk "r" false PyVal.none (some excBoom))] ∧
    run_parallel_regions false cexFail 1 true cexFail ≠ Except.error excBoom := by
  refine ⟨rfl, ?_⟩
  intro hc
  rw [show run_parallel_regions false cexFail 1 true cexFail =
      Except.ok [("r", ParallelResult.mk "r" false PyVal.none (some excBoom))] from rfl] at hc
  cases hc
